import Mathlib

/-!
Verification of the poll session engine of the AgileMate repository.

The poll engine lives in the `vote` command module: a two-level in-memory
registry `activePolls : Map<guildId, Map<pollId, PollData>>`, a creation
entry point `execute`, a button-interaction vote handler (the
`collector.on('collect', ...)` callback), a close routine `endPoll`, and a
manual close command `endExecute`.  JavaScript `Map`s are modelled as
association lists whose operations mirror `Map.get` / `Map.set` /
`Map.delete` (first matching key; `set` replaces in place or appends);
JavaScript `Set`s of user ids are modelled as duplicate-free lists.
-/

namespace AgileMate

/-- A vote ledger: `Map<userId, optionIndex>` from the source. -/
abbrev Ledger := List (String × Nat)

/-- `mapGet m k` models JavaScript `m.get(k)` (first entry with key `k`). -/
def mapGet {α : Type} : List (String × α) → String → Option α
  | [], _ => none
  | (k', v) :: rest, k => if k' = k then some v else mapGet rest k

/-- `mapSet m k v` models JavaScript `m.set(k, v)`: replaces the entry in
place when the key is present, appends it otherwise (insertion order). -/
def mapSet {α : Type} : List (String × α) → String → α → List (String × α)
  | [], k, v => [(k, v)]
  | (k', v') :: rest, k, v =>
      if k' = k then (k, v) :: rest else (k', v') :: mapSet rest k v

/-- `mapDelete m k` models JavaScript `m.delete(k)` (removes the entry with
key `k`; a real `Map` holds at most one). -/
def mapDelete {α : Type} : List (String × α) → String → List (String × α)
  | [], _ => []
  | (k', v') :: rest, k => if k' = k then rest else (k', v') :: mapDelete rest k

/-- One poll's state, from the `activePolls` entry created in `execute`:
`options`, `votes`, `eligibleVoters`, and the armed deadline `timeout`
(modelled as the boolean `timerArmed`; `clearTimeout` sets it to false). -/
structure PollData where
  options : List String
  votes : Ledger
  eligibleVoters : List String
  timerArmed : Bool
deriving Repr, DecidableEq

/-- The per-guild poll registry, the inner map of `activePolls`. -/
abbrev ServerPolls := List (String × PollData)

/-- The global registry `activePolls : Map<guildId, Map<pollId, ...>>`. -/
abbrev ActivePolls := List (String × ServerPolls)

/-- Look a poll up through both levels of `activePolls`. -/
def getPoll (s : ActivePolls) (guildId pollId : String) : Option PollData :=
  (mapGet s guildId).bind (fun sp => mapGet sp pollId)

/-! ## The result compiler (body of `endPoll`, lines 691-721 of the vote module) -/

/-- The winner-or-tie part of the results record produced by `endPoll`. -/
inductive PollResult where
  /-- `maxVotes == 0`: the message says no votes were cast. -/
  | noVotes : PollResult
  /-- Exactly one winning option, with its vote count. -/
  | winner (label : String) (count : Nat) : PollResult
  /-- A tie between several options, in original option order. -/
  | tie (labels : List String) (count : Nat) : PollResult
deriving Repr, DecidableEq

/-- The tallying loop of `endPoll`:
`const voteCounts = Array(options.length).fill(0);
 votes.forEach(optionIndex => voteCounts[optionIndex]++);`.
`List.set` is a no-op for an out-of-range index, whereas JavaScript would
extend the array; the two agree whenever every stored index is in range. -/
def tally (numOptions : Nat) (votes : Ledger) : List Nat :=
  votes.foldl (fun counts e => counts.set e.2 (counts.getD e.2 0 + 1))
    (List.replicate numOptions 0)

/-- `const maxVotes = Math.max(...voteCounts)`; agrees with the JavaScript
value whenever `counts` is non-empty (counts are non-negative). -/
def maxVotes (counts : List Nat) : Nat := counts.foldr Nat.max 0

/-- The index-aware filter
`options.filter((_, index) => voteCounts[index] === maxVotes)`,
unrolled with an explicit running index. -/
def winnersFrom (options : List String) (counts : List Nat) (maxV : Nat)
    (i : Nat) : List String :=
  match options with
  | [] => []
  | o :: rest =>
      if counts.getD i 0 = maxV then o :: winnersFrom rest counts maxV (i + 1)
      else winnersFrom rest counts maxV (i + 1)

/-- `const winners = options.filter((_, index) => voteCounts[index] === maxVotes)`. -/
def winnersList (options : List String) (counts : List Nat) (maxV : Nat) :
    List String :=
  winnersFrom options counts maxV 0

/-- The winner/tie/no-votes decision of `endPoll` (lines 703-715): tally,
take the maximum, filter the winners, then branch on
`maxVotes > 0` and `winners.length === 1`. -/
def compileResult (options : List String) (votes : Ledger) : PollResult :=
  let voteCounts := tally options.length votes
  let maxV := maxVotes voteCounts
  let ws := winnersList options voteCounts maxV
  if maxV > 0 then
    if ws.length = 1 then PollResult.winner (ws.headD "") maxV
    else PollResult.tie ws maxV
  else PollResult.noVotes

/-! ## `endPoll` (lines 684-740) -/

/-- `endPoll(message, pollId, guildId)`: guard on presence, compile and
publish the results, delete the poll, and drop the guild bucket when it
becomes empty.  The returned `Option PollResult` is the published results
reply (`none` when the guard returned early and nothing was published). -/
def endPoll (s : ActivePolls) (guildId pollId : String) :
    Option PollResult × ActivePolls :=
  match mapGet s guildId with
  | none => (none, s)
  | some serverPolls =>
    match mapGet serverPolls pollId with
    | none => (none, s)
    | some pollData =>
        let result := compileResult pollData.options pollData.votes
        let serverPolls' := mapDelete serverPolls pollId
        let s' := if serverPolls'.length = 0 then mapDelete s guildId
                  else mapSet s guildId serverPolls'
        (some result, s')

/-! ## The vote-collector handler (lines 634-666) -/

/-- The ephemeral reply the handler sends to the voter. -/
inductive VoteReply where
  /-- `You do not have permission to vote in this poll.` -/
  | notEligible : VoteReply
  /-- `Your vote for ... has been recorded.` with the chosen option index. -/
  | recorded (optionIndex : Nat) : VoteReply
deriving Repr, DecidableEq

/-- The observable effects of one run of the collector handler. -/
structure VoteOk where
  reply : VoteReply
  cancelledTimer : Bool
  published : Option PollResult
  store : ActivePolls
deriving Repr, DecidableEq

/-- Outcome of the collector handler: either an unhandled fault (the
source dereferences `serverPolls.get(pollId)!` without checking, so a
vote arriving after the poll was removed throws; the store is untouched)
or a normal completion with its effects. -/
inductive VoteOutcome where
  | crash (store : ActivePolls) : VoteOutcome
  | ok (r : VoteOk) : VoteOutcome
deriving Repr, DecidableEq

/-- The store after the handler ran, whichever way it ended. -/
def voteStore : VoteOutcome → ActivePolls
  | VoteOutcome.crash s => s
  | VoteOutcome.ok r => r.store

/-- The results record published by the handler, if any. -/
def votePublished : VoteOutcome → Option PollResult
  | VoteOutcome.crash _ => none
  | VoteOutcome.ok r => r.published

/-- Whether the handler called `clearTimeout` on the deadline timer. -/
def voteCancelledTimer : VoteOutcome → Bool
  | VoteOutcome.crash _ => false
  | VoteOutcome.ok r => r.cancelledTimer

/-- The ephemeral reply the handler sent to the voter, if it got that far. -/
def voteReply : VoteOutcome → Option VoteReply
  | VoteOutcome.crash _ => none
  | VoteOutcome.ok r => some r.reply

/-- The `collector.on('collect', ...)` handler: look the poll up
(`serverPolls.get(pollId)!` — a fault if absent), reject an ineligible
voter, record the vote with `votes.set(userId, optionIndex)` (silent
overwrite), then on full participation (`eligibleVoters.size > 0 &&
votes.size >= eligibleVoters.size`) cancel the timer and run `endPoll`. -/
def collectVote (s : ActivePolls) (guildId pollId userId : String)
    (optionIndex : Nat) : VoteOutcome :=
  match mapGet s guildId with
  | none => VoteOutcome.crash s
  | some serverPolls =>
    match mapGet serverPolls pollId with
    | none => VoteOutcome.crash s
    | some pollData =>
        if pollData.eligibleVoters.length > 0 ∧
            ¬ userId ∈ pollData.eligibleVoters then
          VoteOutcome.ok ⟨VoteReply.notEligible, false, none, s⟩
        else
          let votes' := mapSet pollData.votes userId optionIndex
          if pollData.eligibleVoters.length > 0 ∧
              votes'.length ≥ pollData.eligibleVoters.length then
            let pollData' := { pollData with votes := votes', timerArmed := false }
            let s₁ := mapSet s guildId (mapSet serverPolls pollId pollData')
            VoteOutcome.ok ⟨VoteReply.recorded optionIndex, true,
              (endPoll s₁ guildId pollId).1, (endPoll s₁ guildId pollId).2⟩
          else
            let pollData' := { pollData with votes := votes' }
            VoteOutcome.ok ⟨VoteReply.recorded optionIndex, false, none,
              mapSet s guildId (mapSet serverPolls pollId pollData')⟩

/-! ## `execute` — poll creation (lines 539-681) -/

/-- Reasons `execute` rejects a poll-creation request before creating
any state. -/
inductive StartReject where
  /-- `You need to provide at least two options.` -/
  | tooFewOptions : StartReject
  /-- `You can only provide up to 5 options for button-based voting.` -/
  | tooManyOptions : StartReject
  /-- `This command can only be used in server text channels.` -/
  | notTextChannel : StartReject
deriving Repr, DecidableEq

/-- Outcome of the creation entry point. -/
inductive StartOutcome where
  | rejected (reason : StartReject) : StartOutcome
  | created (pollId : String) (durationMs : Int) : StartOutcome
deriving Repr, DecidableEq

/-- The `execute` entry point of the vote command: validate the option
count and the channel kind, convert the duration with
`duration * 60 * 1000` (no validation of the duration value), snapshot
the eligible voters, and register the poll with an empty ledger and an
armed deadline timer.  `pollId` is the rendered message id; `isDMChannel`
is the `interaction.channel.isDMBased()` test; `eligibleVoters` is the
eligibility snapshot fetched from the platform. -/
def execute (s : ActivePolls) (guildId pollId : String)
    (options : List String) (durationMinutes : Int) (isDMChannel : Bool)
    (eligibleVoters : List String) : StartOutcome × ActivePolls :=
  if options.length < 2 then (StartOutcome.rejected StartReject.tooFewOptions, s)
  else if options.length > 5 then
    (StartOutcome.rejected StartReject.tooManyOptions, s)
  else if isDMChannel then
    (StartOutcome.rejected StartReject.notTextChannel, s)
  else
    let serverPolls := (mapGet s guildId).getD []
    let s' := mapSet s guildId
      (mapSet serverPolls pollId ⟨options, [], eligibleVoters, true⟩)
    (StartOutcome.created pollId (durationMinutes * 60 * 1000), s')

/-! ## `endExecute` — manual close (lines 751-795) -/

/-- The reply `endExecute` sends to the administrator. -/
inductive EndReply where
  /-- `There are no active polls in this server.` -/
  | noActivePolls : EndReply
  /-- No poll id supplied: the list of active polls is shown. -/
  | listShown : EndReply
  /-- `No active poll found with ID ...` -/
  | notFound : EndReply
  /-- The poll was ended; carries what `endPoll` published. -/
  | ended (result : Option PollResult) : EndReply
deriving Repr, DecidableEq

/-- The `/endpoll` command: report when the guild has no active polls,
list the polls when no id is given, report an unknown id, otherwise
`clearTimeout(pollData.timeout)` then `endPoll`. -/
def endExecute (s : ActivePolls) (guildId : String) (pollId : Option String) :
    EndReply × ActivePolls :=
  match mapGet s guildId with
  | none => (EndReply.noActivePolls, s)
  | some serverPolls =>
    if serverPolls.length = 0 then (EndReply.noActivePolls, s)
    else
      match pollId with
      | none => (EndReply.listShown, s)
      | some pid =>
        match mapGet serverPolls pid with
        | none => (EndReply.notFound, s)
        | some pollData =>
            let s₁ := mapSet s guildId
              (mapSet serverPolls pid { pollData with timerArmed := false })
            (EndReply.ended (endPoll s₁ guildId pid).1, (endPoll s₁ guildId pid).2)

/-! ## Reachable states and the store invariant -/

/-- Keys at both levels of the registry are duplicate-free — the guarantee
a JavaScript `Map` gives by construction. -/
def WellKeyed (s : ActivePolls) : Prop :=
  (s.map Prod.fst).Nodup ∧ ∀ e ∈ s, (e.2.map Prod.fst).Nodup

/-- Per-poll facts maintained by the engine: the ledger is keyed by voter
with no duplicates, the eligibility snapshot is a set, every ledger entry
belongs to a voter in the snapshot when eligibility is enforced, and —
when every delivered click carries an index of a button the poll created
(`b = true`) — every stored index is in range. -/
def PollInv (b : Bool) (pd : PollData) : Prop :=
  (pd.votes.map Prod.fst).Nodup ∧
  pd.eligibleVoters.Nodup ∧
  (pd.eligibleVoters ≠ [] → ∀ e ∈ pd.votes, e.1 ∈ pd.eligibleVoters) ∧
  (b = true → ∀ e ∈ pd.votes, e.2 < pd.options.length)

/-- The whole-store invariant. -/
def StoreInv (b : Bool) (s : ActivePolls) : Prop :=
  WellKeyed s ∧
  ∀ g sp, mapGet s g = some sp → ∀ p pd, mapGet sp p = some pd → PollInv b pd

instance (s : ActivePolls) : Decidable (WellKeyed s) := by
  unfold WellKeyed
  infer_instance

/-- The reachable states of the engine: the empty registry, poll creation
(`execute`, with a platform-supplied duplicate-free eligibility snapshot),
a delivered button click (`collectVote`), the deadline timer firing
(`endPoll`), and the manual `/endpoll` command (`endExecute`).  When
`clicksInRange = true`, delivered clicks are restricted to the buttons the
poll actually created (`vote_0` … `vote_{options.length-1}`), which is what
the chat platform guarantees; with `clicksInRange = false` arbitrary
option indices may arrive. -/
inductive Reachable : Bool → ActivePolls → Prop where
  | init (b : Bool) : Reachable b []
  | start {b : Bool} {s : ActivePolls} (g p : String) (options : List String)
      (d : Int) (dm : Bool) {elig : List String} (helig : elig.Nodup)
      (h : Reachable b s) : Reachable b (execute s g p options d dm elig).2
  | vote {b : Bool} {s : ActivePolls} (g p u : String) (idx : Nat)
      (hui : b = true → ∀ pd, getPoll s g p = some pd →
        idx < pd.options.length)
      (h : Reachable b s) : Reachable b (voteStore (collectVote s g p u idx))
  | timerClose {b : Bool} {s : ActivePolls} (g p : String)
      (h : Reachable b s) : Reachable b (endPoll s g p).2
  | manualClose {b : Bool} {s : ActivePolls} (g : String) (pid : Option String)
      (h : Reachable b s) : Reachable b (endExecute s g pid).2

/-- The `voteCounts` array `endPoll` computes for a session. -/
def pollCounts (options : List String) (votes : Ledger) : List Nat :=
  tally options.length votes

/-- The `maxVotes` value `endPoll` computes for a session. -/
def pollMax (options : List String) (votes : Ledger) : Nat :=
  maxVotes (pollCounts options votes)

/-- The `winners` list `endPoll` computes for a session. -/
def pollWinners (options : List String) (votes : Ledger) : List String :=
  winnersList options (pollCounts options votes) (pollMax options votes)

section MapLemmas

variable {α : Type}

theorem mapGet_mapSet_self (m : List (String × α)) (k : String) (v : α) :
    mapGet (mapSet m k v) k = some v := by
  induction m with
  | nil => simp [mapSet, mapGet]
  | cons e rest ih =>
      obtain ⟨k', v'⟩ := e
      by_cases h : k' = k
      · simp [mapSet, h, mapGet]
      · simp [mapSet, h, mapGet, ih]

theorem mapGet_mapSet_ne (m : List (String × α)) (k k' : String) (v : α)
    (h : k' ≠ k) : mapGet (mapSet m k v) k' = mapGet m k' := by
  induction m with
  | nil => simp [mapSet, mapGet, Ne.symm h]
  | cons e rest ih =>
      obtain ⟨k₀, v₀⟩ := e
      by_cases h₀ : k₀ = k
      · subst h₀
        simp [mapSet, mapGet, Ne.symm h]
      · by_cases h₁ : k₀ = k'
        · simp [mapSet, h₀, mapGet, h₁, h]
        · simp [mapSet, h₀, mapGet, h₁, ih]

theorem mapGet_eq_none_iff (m : List (String × α)) (k : String) :
    mapGet m k = none ↔ k ∉ m.map Prod.fst := by
  induction m with
  | nil => simp [mapGet]
  | cons e rest ih =>
      obtain ⟨k', v'⟩ := e
      rw [List.map_cons, List.mem_cons]
      by_cases h : k' = k
      · simp [mapGet, h]
      · rw [mapGet, if_neg h, ih]
        constructor
        · intro hn hor
          rcases hor with h1 | h1
          · exact h h1.symm
          · exact hn h1
        · intro hn h1
          exact hn (Or.inr h1)

theorem mem_of_mapGet_eq_some {m : List (String × α)} {k : String} {v : α}
    (h : mapGet m k = some v) : (k, v) ∈ m := by
  induction m with
  | nil => simp [mapGet] at h
  | cons e rest ih =>
      obtain ⟨k', v'⟩ := e
      by_cases hk : k' = k
      · subst hk
        simp [mapGet] at h
        simp [h]
      · simp [mapGet, hk] at h
        exact List.mem_cons_of_mem _ (ih h)

theorem keys_mapSet_of_mem (m : List (String × α)) (k : String) (v : α)
    (h : k ∈ m.map Prod.fst) :
    (mapSet m k v).map Prod.fst = m.map Prod.fst := by
  induction m with
  | nil => simp at h
  | cons e rest ih =>
      obtain ⟨k', v'⟩ := e
      by_cases hk : k' = k
      · simp [mapSet, hk]
      · rw [List.map_cons, List.mem_cons] at h
        rcases h with h | h
        · exact absurd h.symm hk
        · simp [mapSet, hk, ih h]

theorem keys_mapSet_of_not_mem (m : List (String × α)) (k : String) (v : α)
    (h : k ∉ m.map Prod.fst) :
    (mapSet m k v).map Prod.fst = m.map Prod.fst ++ [k] := by
  induction m with
  | nil => simp [mapSet]
  | cons e rest ih =>
      obtain ⟨k', v'⟩ := e
      rw [List.map_cons, List.mem_cons] at h
      push_neg at h
      simp [mapSet, Ne.symm h.1, ih h.2]

theorem keys_nodup_mapSet (m : List (String × α)) (k : String) (v : α)
    (h : (m.map Prod.fst).Nodup) : ((mapSet m k v).map Prod.fst).Nodup := by
  by_cases hk : k ∈ m.map Prod.fst
  · rw [keys_mapSet_of_mem m k v hk]; exact h
  · rw [keys_mapSet_of_not_mem m k v hk]
    simp [List.nodup_append, h, hk]

theorem mapDelete_sublist (m : List (String × α)) (k : String) :
    (mapDelete m k).Sublist m := by
  induction m with
  | nil => simp [mapDelete]
  | cons e rest ih =>
      obtain ⟨k', v'⟩ := e
      by_cases h : k' = k
      · rw [mapDelete, if_pos h]
        exact List.sublist_cons_self (k', v') rest
      · rw [mapDelete, if_neg h]
        exact List.Sublist.cons₂ (k', v') ih

theorem keys_nodup_mapDelete (m : List (String × α)) (k : String)
    (h : (m.map Prod.fst).Nodup) : ((mapDelete m k).map Prod.fst).Nodup :=
  List.Nodup.sublist ((mapDelete_sublist m k).map Prod.fst) h

theorem mapGet_mapDelete_self (m : List (String × α)) (k : String)
    (h : (m.map Prod.fst).Nodup) : mapGet (mapDelete m k) k = none := by
  induction m with
  | nil => simp [mapDelete, mapGet]
  | cons e rest ih =>
      obtain ⟨k', v'⟩ := e
      rw [List.map_cons, List.nodup_cons] at h
      by_cases hk : k' = k
      · subst hk
        rw [mapDelete, if_pos rfl, mapGet_eq_none_iff]
        exact h.1
      · rw [mapDelete, if_neg hk, mapGet, if_neg hk]
        exact ih h.2

theorem mapGet_mapDelete_ne (m : List (String × α)) (k k' : String)
    (h : k' ≠ k) : mapGet (mapDelete m k) k' = mapGet m k' := by
  induction m with
  | nil => simp [mapDelete]
  | cons e rest ih =>
      obtain ⟨k₀, v₀⟩ := e
      by_cases h₀ : k₀ = k
      · subst h₀
        rw [mapDelete, if_pos rfl, mapGet, if_neg (Ne.symm h)]
      · by_cases h₁ : k₀ = k'
        · rw [mapDelete, if_neg h₀, mapGet, if_pos h₁, mapGet, if_pos h₁]
        · rw [mapDelete, if_neg h₀, mapGet, if_neg h₁, mapGet, if_neg h₁, ih]

theorem length_mapSet_of_mem (m : List (String × α)) (k : String) (v : α)
    (h : k ∈ m.map Prod.fst) : (mapSet m k v).length = m.length := by
  induction m with
  | nil => simp at h
  | cons e rest ih =>
      obtain ⟨k', v'⟩ := e
      by_cases hk : k' = k
      · simp [mapSet, hk]
      · rw [List.map_cons, List.mem_cons] at h
        rcases h with h | h
        · exact absurd h.symm hk
        · simp [mapSet, hk, ih h]

theorem length_mapSet_le (m : List (String × α)) (k : String) (v : α) :
    (mapSet m k v).length ≤ m.length + 1 := by
  induction m with
  | nil => simp [mapSet]
  | cons e rest ih =>
      obtain ⟨k', v'⟩ := e
      by_cases hk : k' = k
      · simp [mapSet, hk]
      · simp [mapSet, hk]
        omega

end MapLemmas

theorem mem_mapSet {α : Type} {m : List (String × α)} {k : String} {v : α}
    {e : String × α} (h : e ∈ mapSet m k v) : e = (k, v) ∨ e ∈ m := by
  induction m with
  | nil => simpa [mapSet] using h
  | cons e₀ rest ih =>
      obtain ⟨k₀, v₀⟩ := e₀
      by_cases hk : k₀ = k
      · rw [mapSet, if_pos hk, List.mem_cons] at h
        rcases h with h | h
        · exact Or.inl h
        · exact Or.inr (List.mem_cons_of_mem _ h)
      · rw [mapSet, if_neg hk, List.mem_cons] at h
        rcases h with h | h
        · exact Or.inr (h ▸ List.mem_cons_self _ _)
        · rcases ih h with h' | h'
          · exact Or.inl h'
          · exact Or.inr (List.mem_cons_of_mem _ h')

theorem mem_of_mem_mapDelete {α : Type} {m : List (String × α)} {k : String}
    {e : String × α} (h : e ∈ mapDelete m k) : e ∈ m :=
  (mapDelete_sublist m k).mem h

theorem wellKeyed_inner {s : ActivePolls} {g : String} {sp : ServerPolls}
    (hs : WellKeyed s) (hg : mapGet s g = some sp) :
    (sp.map Prod.fst).Nodup :=
  hs.2 (g, sp) (mem_of_mapGet_eq_some hg)

theorem storeInv_mapSet {b : Bool} {s : ActivePolls} {g : String}
    {sp : ServerPolls} (hs : StoreInv b s)
    (hnd : (sp.map Prod.fst).Nodup)
    (hpolls : ∀ p pd, mapGet sp p = some pd → PollInv b pd) :
    StoreInv b (mapSet s g sp) := by
  obtain ⟨⟨hkeys, hinner⟩, hpoll⟩ := hs
  refine ⟨⟨keys_nodup_mapSet s g sp hkeys, ?_⟩, ?_⟩
  · intro e he
    rcases mem_mapSet he with he | he
    · rw [he]; exact hnd
    · exact hinner e he
  · intro g' sp' hg' p pd hp
    by_cases hgg : g' = g
    · subst hgg
      rw [mapGet_mapSet_self] at hg'
      cases hg'
      exact hpolls p pd hp
    · rw [mapGet_mapSet_ne s g g' sp hgg] at hg'
      exact hpoll g' sp' hg' p pd hp

theorem storeInv_mapDelete {b : Bool} {s : ActivePolls} {g : String}
    (hs : StoreInv b s) : StoreInv b (mapDelete s g) := by
  obtain ⟨⟨hkeys, hinner⟩, hpoll⟩ := hs
  refine ⟨⟨keys_nodup_mapDelete s g hkeys, ?_⟩, ?_⟩
  · intro e he
    exact hinner e (mem_of_mem_mapDelete he)
  · intro g' sp' hg' p pd hp
    by_cases hgg : g' = g
    · rw [hgg, mapGet_mapDelete_self s g hkeys] at hg'
      cases hg'
    · rw [mapGet_mapDelete_ne s g g' hgg] at hg'
      exact hpoll g' sp' hg' p pd hp

theorem storeInv_endPoll {b : Bool} {s : ActivePolls} (g p : String)
    (hs : StoreInv b s) : StoreInv b (endPoll s g p).2 := by
  cases hg : mapGet s g with
  | none => simpa [endPoll, hg] using hs
  | some sp =>
    cases hp : mapGet sp p with
    | none => simpa [endPoll, hg, hp] using hs
    | some pd =>
      have hnd : (sp.map Prod.fst).Nodup := wellKeyed_inner hs.1 hg
      simp only [endPoll, hg, hp]
      by_cases hlen : (mapDelete sp p).length = 0
      · rw [if_pos hlen]
        exact storeInv_mapDelete hs
      · rw [if_neg hlen]
        refine storeInv_mapSet hs (keys_nodup_mapDelete sp p hnd) ?_
        intro p' pd' hp'
        by_cases hpp : p' = p
        · subst hpp
          rw [mapGet_mapDelete_self sp p' hnd] at hp'
          cases hp'
        · rw [mapGet_mapDelete_ne sp p p' hpp] at hp'
          exact hs.2 g sp hg p' pd' hp'

theorem pollInv_setVote {b : Bool} {pd : PollData} {u : String} {idx : Nat}
    (hpd : PollInv b pd)
    (helig : pd.eligibleVoters ≠ [] → u ∈ pd.eligibleVoters)
    (hidx : b = true → idx < pd.options.length) (arm : Bool) :
    PollInv b { pd with votes := mapSet pd.votes u idx, timerArmed := arm } := by
  obtain ⟨hnd, hen, hsub, hrange⟩ := hpd
  refine ⟨keys_nodup_mapSet pd.votes u idx hnd, hen, ?_, ?_⟩
  · intro hne e he
    rcases mem_mapSet he with he | he
    · rw [he]; exact helig hne
    · exact hsub hne e he
  · intro hb e he
    rcases mem_mapSet he with he | he
    · rw [he]; exact hidx hb
    · exact hrange hb e he

theorem storeInv_collectVote {b : Bool} {s : ActivePolls}
    (g p u : String) (idx : Nat) (hs : StoreInv b s)
    (hui : b = true → ∀ pd, getPoll s g p = some pd → idx < pd.options.length) :
    StoreInv b (voteStore (collectVote s g p u idx)) := by
  cases hg : mapGet s g with
  | none => simpa [collectVote, hg, voteStore] using hs
  | some sp =>
    cases hp : mapGet sp p with
    | none => simpa [collectVote, hg, hp, voteStore] using hs
    | some pd =>
      have hnd : (sp.map Prod.fst).Nodup := wellKeyed_inner hs.1 hg
      have hpd : PollInv b pd := hs.2 g sp hg p pd hp
      have hgetPoll : getPoll s g p = some pd := by
        simp [getPoll, hg, hp]
      simp only [collectVote, hg, hp]
      by_cases hel : pd.eligibleVoters.length > 0 ∧ ¬ u ∈ pd.eligibleVoters
      · rw [if_pos hel]
        exact hs
      · rw [if_neg hel]
        have hmem : pd.eligibleVoters ≠ [] → u ∈ pd.eligibleVoters := by
          intro hne
          by_contra hu
          exact hel ⟨List.length_pos.mpr hne, hu⟩
        have hidx : b = true → idx < pd.options.length := fun hb =>
          hui hb pd hgetPoll
        have hinner : ∀ (arm : Bool) p' pd',
            mapGet (mapSet sp p
              { pd with votes := mapSet pd.votes u idx, timerArmed := arm })
              p' = some pd' → PollInv b pd' := by
          intro arm p' pd' hp'
          by_cases hpp : p' = p
          · rw [hpp, mapGet_mapSet_self] at hp'
            cases hp'
            exact pollInv_setVote hpd hmem hidx arm
          · rw [mapGet_mapSet_ne sp p p' _ hpp] at hp'
            exact hs.2 g sp hg p' pd' hp'
        by_cases hfull : pd.eligibleVoters.length > 0 ∧
            (mapSet pd.votes u idx).length ≥ pd.eligibleVoters.length
        · rw [if_pos hfull]
          simp only [voteStore]
          exact storeInv_endPoll g p
            (storeInv_mapSet hs (keys_nodup_mapSet sp p _ hnd) (hinner false))
        · rw [if_neg hfull]
          simp only [voteStore]
          exact @storeInv_mapSet b s g _ hs (keys_nodup_mapSet sp p _ hnd)
            (hinner pd.timerArmed)

theorem storeInv_execute {b : Bool} {s : ActivePolls}
    (g p : String) (options : List String) (d : Int) (dm : Bool)
    {elig : List String} (helig : elig.Nodup) (hs : StoreInv b s) :
    StoreInv b (execute s g p options d dm elig).2 := by
  rw [execute]
  by_cases h2 : options.length < 2
  · rw [if_pos h2]; exact hs
  · rw [if_neg h2]
    by_cases h5 : options.length > 5
    · rw [if_pos h5]; exact hs
    · rw [if_neg h5]
      by_cases hdm : dm = true

      · rw [if_pos hdm]; exact hs
      · rw [if_neg hdm]
        simp only
        have hnd : (((mapGet s g).getD []).map Prod.fst).Nodup := by
          cases hg : mapGet s g with
          | none => simp
          | some sp => simpa using wellKeyed_inner hs.1 hg
        refine storeInv_mapSet hs (keys_nodup_mapSet _ p _ hnd) ?_
        intro p' pd' hp'
        by_cases hpp : p' = p
        · rw [hpp, mapGet_mapSet_self] at hp'
          cases hp'
          exact ⟨by simp, helig, by simp, by simp⟩
        · rw [mapGet_mapSet_ne _ p p' _ hpp] at hp'
          cases hg : mapGet s g with
          | none => rw [hg] at hp'; simp [mapGet] at hp'
          | some sp =>
              rw [hg] at hp'
              exact hs.2 g sp hg p' pd' (by simpa using hp')

theorem storeInv_endExecute {b : Bool} {s : ActivePolls}
    (g : String) (pid : Option String) (hs : StoreInv b s) :
    StoreInv b (endExecute s g pid).2 := by
  cases pid with
  | none =>
    cases hg : mapGet s g with
    | none => simpa [endExecute, hg] using hs
    | some sp =>
      simp only [endExecute, hg]
      by_cases hlen : sp.length = 0
      · rw [if_pos hlen]; exact hs
      · rw [if_neg hlen]; exact hs
  | some pid =>
    cases hg : mapGet s g with
    | none => simpa [endExecute, hg] using hs
    | some sp =>
      cases hp : mapGet sp pid with
      | none =>
        simp only [endExecute, hg, hp]
        by_cases hlen : sp.length = 0
        · rw [if_pos hlen]; exact hs
        · rw [if_neg hlen]; exact hs
      | some pd =>
        simp only [endExecute, hg, hp]
        by_cases hlen : sp.length = 0
        · rw [if_pos hlen]; exact hs
        · rw [if_neg hlen]
          have hnd : (sp.map Prod.fst).Nodup := wellKeyed_inner hs.1 hg
          refine storeInv_endPoll g pid
            (storeInv_mapSet hs (keys_nodup_mapSet sp pid _ hnd) ?_)
          intro p' pd' hp'
          by_cases hpp : p' = pid
          · rw [hpp, mapGet_mapSet_self] at hp'
            cases hp'
            obtain ⟨h1, h2, h3, h4⟩ := hs.2 g sp hg pid pd hp
            exact ⟨h1, h2, h3, h4⟩
          · rw [mapGet_mapSet_ne sp pid p' _ hpp] at hp'
            exact hs.2 g sp hg p' pd' hp'

theorem reachable_storeInv {b : Bool} {s : ActivePolls}
    (h : Reachable b s) : StoreInv b s := by
  induction h with
  | init => exact ⟨⟨by simp, by simp⟩, by intro g sp hg; simp [mapGet] at hg⟩
  | start g p options d dm helig h ih => exact storeInv_execute g p options d dm helig ih
  | vote g p u idx hui h ih => exact storeInv_collectVote g p u idx ih hui
  | timerClose g p h ih => exact storeInv_endPoll g p ih
  | manualClose g pid h ih => exact storeInv_endExecute g pid ih

/-! ## Facts about the result compiler -/

theorem getD_set_self (l : List Nat) (i a : Nat) (h : i < l.length) :
    (l.set i a).getD i 0 = a := by
  induction l generalizing i with
  | nil => simp at h
  | cons x rest ih =>
      cases i with
      | zero => simp
      | succ j =>
          simp only [List.set, List.getD_cons_succ]
          exact ih j (by simpa using h)

theorem getD_set_ne (l : List Nat) (i j a : Nat) (h : j ≠ i) :
    (l.set i a).getD j 0 = l.getD j 0 := by
  induction l generalizing i j with
  | nil => simp
  | cons x rest ih =>
      cases i with
      | zero =>
          cases j with
          | zero => exact absurd rfl h
          | succ j' => simp
      | succ i' =>
          cases j with
          | zero => simp
          | succ j' =>
              simp only [List.set, List.getD_cons_succ]
              exact ih i' j' (fun hj => h (by rw [hj]))

theorem length_tally_foldl (votes : Ledger) (acc : List Nat) :
    (votes.foldl (fun counts e => counts.set e.2 (counts.getD e.2 0 + 1))
      acc).length = acc.length := by
  induction votes generalizing acc with
  | nil => rfl
  | cons e rest ih =>
      rw [List.foldl_cons, ih]
      exact List.length_set acc e.2 _

theorem getD_tally_foldl (votes : Ledger) (acc : List Nat) (i : Nat)
    (hin : ∀ e ∈ votes, e.2 < acc.length) :
    (votes.foldl (fun counts e => counts.set e.2 (counts.getD e.2 0 + 1))
        acc).getD i 0 =
      acc.getD i 0 + (votes.filter (fun e => e.2 == i)).length := by
  induction votes generalizing acc with
  | nil => simp
  | cons e rest ih =>
      rw [List.foldl_cons]
      have he : e.2 < acc.length := hin e (List.mem_cons_self e rest)
      have hrest : ∀ e' ∈ rest, e'.2 < (acc.set e.2 (acc.getD e.2 0 + 1)).length := by
        intro e' he'
        rw [List.length_set]
        exact hin e' (List.mem_cons_of_mem e he')
      rw [ih _ hrest]
      by_cases hi : e.2 = i
      · rw [hi, getD_set_self acc i _ (hi ▸ he)]
        rw [List.filter_cons_of_pos (by simpa using hi)]
        simp [Nat.add_assoc, Nat.add_comm 1]
      · rw [getD_set_ne acc e.2 i _ (Ne.symm hi)]
        rw [List.filter_cons_of_neg (by simpa using hi)]

theorem length_tally (numOptions : Nat) (votes : Ledger) :
    (tally numOptions votes).length = numOptions := by
  rw [tally, length_tally_foldl, List.length_replicate]

theorem getD_tally (numOptions : Nat) (votes : Ledger) (i : Nat)
    (hin : ∀ e ∈ votes, e.2 < numOptions) :
    (tally numOptions votes).getD i 0 =
      (votes.filter (fun e => e.2 == i)).length := by
  rw [tally, getD_tally_foldl votes _ i (by simpa using hin)]
  have hrepl : (List.replicate numOptions (0 : Nat)).getD i 0 = 0 := by
    rw [List.getD_eq_getElem?_getD, List.getElem?_replicate]
    split <;> rfl
  rw [hrepl, Nat.zero_add]

/-- The tallying fold computes exactly the per-option vote counts. -/
theorem tally_eq_counts (numOptions : Nat) (votes : Ledger)
    (hin : ∀ e ∈ votes, e.2 < numOptions) :
    tally numOptions votes =
      (List.range numOptions).map
        (fun i => (votes.filter (fun e => e.2 == i)).length) := by
  apply List.ext_getElem
  · rw [length_tally, List.length_map, List.length_range]
  · intro i h1 h2
    have hg : (tally numOptions votes)[i] =
        (tally numOptions votes).getD i 0 := by
      rw [List.getD_eq_getElem?_getD, List.getElem?_eq_getElem h1]
      rfl
    rw [hg, getD_tally numOptions votes i hin]
    rw [List.getElem_map]
    congr 1
    rw [List.getElem_range]

theorem le_maxVotes (counts : List Nat) : ∀ c ∈ counts, c ≤ maxVotes counts := by
  induction counts with
  | nil => intro c hc; simp at hc
  | cons x rest ih =>
      intro c hc
      rw [List.mem_cons] at hc
      rcases hc with hc | hc
      · rw [hc, maxVotes, List.foldr_cons]
        exact Nat.le_max_left x _
      · calc c ≤ maxVotes rest := ih c hc
          _ ≤ Nat.max x (maxVotes rest) := Nat.le_max_right x _
          _ = maxVotes (x :: rest) := rfl

theorem maxVotes_mem (counts : List Nat) (h : counts ≠ []) :
    maxVotes counts ∈ counts := by
  induction counts with
  | nil => exact absurd rfl h
  | cons x rest ih =>
      cases rest with
      | nil => simp [maxVotes]
      | cons y t =>
          have hx : maxVotes (x :: y :: t) = Nat.max x (maxVotes (y :: t)) := rfl
          rcases Nat.le_total x (maxVotes (y :: t)) with hle | hle
          · have he : Nat.max x (maxVotes (y :: t)) = maxVotes (y :: t) :=
              Nat.max_eq_right hle
            rw [hx, he]
            exact List.mem_cons_of_mem x (ih (by simp))
          · have he : Nat.max x (maxVotes (y :: t)) = x := Nat.max_eq_left hle
            rw [hx, he]
            exact List.mem_cons_self x _

theorem winnersFrom_sublist (options : List String) (counts : List Nat)
    (m i : Nat) : (winnersFrom options counts m i).Sublist options := by
  induction options generalizing i with
  | nil => simp [winnersFrom]
  | cons o rest ih =>
      rw [winnersFrom]
      by_cases h : counts.getD i 0 = m
      · rw [if_pos h]
        exact List.Sublist.cons₂ o (ih (i + 1))
      · rw [if_neg h]
        exact List.Sublist.cons o (ih (i + 1))

theorem mem_winnersFrom {options : List String} {counts : List Nat}
    {m i : Nat} {w : String} (h : w ∈ winnersFrom options counts m i) :
    ∃ j, j < options.length ∧ options.getD j "" = w ∧
      counts.getD (i + j) 0 = m := by
  induction options generalizing i with
  | nil => simp [winnersFrom] at h
  | cons o rest ih =>
      rw [winnersFrom] at h
      by_cases hc : counts.getD i 0 = m
      · rw [if_pos hc, List.mem_cons] at h
        rcases h with h | h
        · exact ⟨0, by simp, by simp [h.symm], by simpa using hc⟩
        · obtain ⟨j, hj, hw, hcount⟩ := ih h
          exact ⟨j + 1, by simpa using hj, by simpa using hw,
            by rw [← hcount]; congr 1; omega⟩
      · rw [if_neg hc] at h
        obtain ⟨j, hj, hw, hcount⟩ := ih h
        exact ⟨j + 1, by simpa using hj, by simpa using hw,
          by rw [← hcount]; congr 1; omega⟩

theorem winnersFrom_complete {options : List String} {counts : List Nat}
    {m i : Nat} : ∀ j, j < options.length → counts.getD (i + j) 0 = m →
    options.getD j "" ∈ winnersFrom options counts m i := by
  induction options generalizing i with
  | nil => intro j hj; simp at hj
  | cons o rest ih =>
      intro j hj hcount
      rw [winnersFrom]
      cases j with
      | zero =>
          rw [Nat.add_zero] at hcount
          rw [if_pos hcount]
          simp
      | succ j' =>
          have hcount' : counts.getD (i + 1 + j') 0 = m := by
            rw [← hcount]; congr 1; omega
          have hmem := ih j' (by simpa using hj) hcount'
          by_cases hc : counts.getD i 0 = m
          · rw [if_pos hc]
            exact List.mem_cons_of_mem o (by simpa using hmem)
          · rw [if_neg hc]
            simpa using hmem

/-! ## Behaviour of the close routine and the handlers on absent sessions -/

theorem getPoll_eq_some {s : ActivePolls} {g p : String} {pd : PollData}
    (h : getPoll s g p = some pd) :
    ∃ sp, mapGet s g = some sp ∧ mapGet sp p = some pd := by
  rw [getPoll] at h
  cases hg : mapGet s g with
  | none => rw [hg] at h; cases h
  | some sp =>
      rw [hg] at h
      exact ⟨sp, rfl, h⟩

theorem endPoll_absent {s : ActivePolls} {g p : String}
    (h : getPoll s g p = none) : endPoll s g p = (none, s) := by
  cases hg : mapGet s g with
  | none => simp only [endPoll, hg]
  | some sp =>
      have hp : mapGet sp p = none := by
        rw [getPoll, hg] at h
        simpa using h
      simp only [endPoll, hg, hp]

theorem endPoll_present {s : ActivePolls} {g p : String} {sp : ServerPolls}
    {pd : PollData} (hg : mapGet s g = some sp) (hp : mapGet sp p = some pd) :
    (endPoll s g p).1 = some (compileResult pd.options pd.votes) := by
  simp only [endPoll, hg, hp]

theorem collectVote_absent {s : ActivePolls} {g p u : String} {idx : Nat}
    (h : getPoll s g p = none) :
    collectVote s g p u idx = VoteOutcome.crash s := by
  cases hg : mapGet s g with
  | none => simp only [collectVote, hg]
  | some sp =>
      have hp : mapGet sp p = none := by
        rw [getPoll, hg] at h
        simpa using h
      simp only [collectVote, hg, hp]

theorem endExecute_absent {s : ActivePolls} {g p : String}
    (h : getPoll s g p = none) :
    (endExecute s g (some p)).2 = s ∧
      ((endExecute s g (some p)).1 = EndReply.noActivePolls ∨
        (endExecute s g (some p)).1 = EndReply.notFound) := by
  cases hg : mapGet s g with
  | none => simp [endExecute, hg]
  | some sp =>
      have hp : mapGet sp p = none := by
        rw [getPoll, hg] at h
        simpa using h
      simp only [endExecute, hg, hp]
      by_cases hlen : sp.length = 0
      · rw [if_pos hlen]; exact ⟨rfl, Or.inl rfl⟩
      · rw [if_neg hlen]; exact ⟨rfl, Or.inr rfl⟩

theorem wellKeyed_mapSet {s : ActivePolls} {g : String} {sp : ServerPolls}
    (hs : WellKeyed s) (hnd : (sp.map Prod.fst).Nodup) :
    WellKeyed (mapSet s g sp) := by
  obtain ⟨hkeys, hinner⟩ := hs
  refine ⟨keys_nodup_mapSet s g sp hkeys, ?_⟩
  intro e he
  rcases mem_mapSet he with he | he
  · rw [he]; exact hnd
  · exact hinner e he

/-- After `endPoll` on a well-keyed store the session is gone. -/
theorem getPoll_endPoll_self {s : ActivePolls} (g p : String)
    (hs : WellKeyed s) : getPoll (endPoll s g p).2 g p = none := by
  cases hg : mapGet s g with
  | none => simp [endPoll, hg, getPoll]
  | some sp =>
    cases hp : mapGet sp p with
    | none => simp [endPoll, hg, hp, getPoll]
    | some pd =>
        have hnd : (sp.map Prod.fst).Nodup := wellKeyed_inner hs hg
        simp only [endPoll, hg, hp]
        by_cases hlen : (mapDelete sp p).length = 0
        · rw [if_pos hlen]
          simp [getPoll, mapGet_mapDelete_self s g hs.1]
        · rw [if_neg hlen]
          simp [getPoll, mapGet_mapSet_self, mapGet_mapDelete_self sp p hnd]

/-- Claim C1: a session closes exactly once.  `endPoll` removes the
session from the store, and every further close trigger on the same
session — the stale deadline timer or any repeated `endPoll`, a repeated
manual `/endpoll` (`endExecute`), or a late button click (`collectVote`)
— publishes nothing and leaves the store exactly as it was.  Triggers are
modelled as atomic steps, with `WellKeyed` the key-uniqueness guarantee
of the JavaScript `Map`s. -/
theorem closedExactlyOnce (s : ActivePolls) (g p : String)
    (hs : WellKeyed s) :
    getPoll (endPoll s g p).2 g p = none ∧
    endPoll (endPoll s g p).2 g p = (none, (endPoll s g p).2) ∧
    (endExecute (endPoll s g p).2 g (some p)).2 = (endPoll s g p).2 ∧
    ((endExecute (endPoll s g p).2 g (some p)).1 = EndReply.noActivePolls ∨
      (endExecute (endPoll s g p).2 g (some p)).1 = EndReply.notFound) ∧
    ∀ u idx, collectVote (endPoll s g p).2 g p u idx =
      VoteOutcome.crash (endPoll s g p).2 := by
  have habs := getPoll_endPoll_self g p hs
  obtain ⟨h1, h2⟩ := endExecute_absent habs
  exact ⟨habs, endPoll_absent habs, h1, h2,
    fun u idx => collectVote_absent habs⟩

/-- Witness for C1 at a concrete two-poll store: closing poll `p`
removes it, the repeated close publishes nothing and leaves the store
unchanged, the repeated manual close reports the poll missing, and a
late vote faults without mutating anything. -/
theorem closedExactlyOnce_witness :
    getPoll (endPoll [("g", [("p", ⟨["A", "B"], [("u", 0)], ["u", "v"], true⟩),
        ("q", ⟨["C", "D"], [], [], true⟩)])] "g" "p").2 "g" "p" = none ∧
    endPoll (endPoll [("g", [("p", ⟨["A", "B"], [("u", 0)], ["u", "v"], true⟩),
        ("q", ⟨["C", "D"], [], [], true⟩)])] "g" "p").2 "g" "p" =
      (none, (endPoll [("g", [("p", ⟨["A", "B"], [("u", 0)], ["u", "v"], true⟩),
        ("q", ⟨["C", "D"], [], [], true⟩)])] "g" "p").2) ∧
    collectVote (endPoll [("g", [("p", ⟨["A", "B"], [("u", 0)], ["u", "v"], true⟩),
        ("q", ⟨["C", "D"], [], [], true⟩)])] "g" "p").2 "g" "p" "u" 0 =
      VoteOutcome.crash (endPoll [("g",
        [("p", ⟨["A", "B"], [("u", 0)], ["u", "v"], true⟩),
        ("q", ⟨["C", "D"], [], [], true⟩)])] "g" "p").2 := by
  have h := closedExactlyOnce
    [("g", [("p", ⟨["A", "B"], [("u", 0)], ["u", "v"], true⟩),
      ("q", ⟨["C", "D"], [], [], true⟩)])] "g" "p" (by decide)
  exact ⟨h.1, h.2.1, h.2.2.2.2 "u" 0⟩

/-- Claim C2 counterexample: after a session is closed and removed, a
late cast-vote is NOT answered with a "poll ended" rejection — the
handler faults dereferencing the missing session (no reply at all is
produced), though the store is indeed left unmutated. -/
theorem pollEndedRejection_counterexample :
    collectVote (endPoll (execute [] "g" "p" ["A", "B"] 5 false
        ["u", "v", "w"]).2 "g" "p").2 "g" "p" "u" 0 =
      VoteOutcome.crash (endPoll (execute [] "g" "p" ["A", "B"] 5 false
        ["u", "v", "w"]).2 "g" "p").2 ∧
    voteReply (collectVote (endPoll (execute [] "g" "p" ["A", "B"] 5 false
        ["u", "v", "w"]).2 "g" "p").2 "g" "p" "u" 0) = none := by
  exact ⟨rfl, rfl⟩

/-- Claim C2 as amended: a cast-vote naming a session that is absent
from the store (never existed, or already closed and removed) performs
no state mutation, but instead of being rejected with a "poll ended"
signal the handler faults on the missing session
(`serverPolls.get(pollId)!` dereferences `undefined`). -/
theorem pollEndedNoMutation (s : ActivePolls) (g p u : String) (idx : Nat)
    (h : getPoll s g p = none) :
    collectVote s g p u idx = VoteOutcome.crash s :=
  collectVote_absent h

/-- Witness for the amended C2 at the concrete closed-session store. -/
theorem pollEndedNoMutation_witness :
    collectVote (endPoll (execute [] "g" "p" ["A", "B"] 5 false
        ["u", "v", "w"]).2 "g" "p").2 "g" "p" "x" 1 =
      VoteOutcome.crash (endPoll (execute [] "g" "p" ["A", "B"] 5 false
        ["u", "v", "w"]).2 "g" "p").2 :=
  pollEndedNoMutation (endPoll (execute [] "g" "p" ["A", "B"] 5 false
    ["u", "v", "w"]).2 "g" "p").2 "g" "p" "x" 1 (by decide)

/-- Claim C3: the result compiler tallies per-option counts over all
recorded votes, takes the maximum count, and reports "no votes cast"
when the maximum is zero (never an all-zero tie), the sole winner when
exactly one option attains the maximum, and otherwise the tie of exactly
the options attaining the maximum, in original option order (the winners
list is a sublist of `options`). -/
theorem resultCompilation (options : List String) (votes : Ledger)
    (hin : ∀ e ∈ votes, e.2 < options.length) :
    pollCounts options votes =
      (List.range options.length).map
        (fun i => (votes.filter (fun e => e.2 == i)).length) ∧
    (∀ c ∈ pollCounts options votes, c ≤ pollMax options votes) ∧
    (options ≠ [] → pollMax options votes ∈ pollCounts options votes) ∧
    (pollWinners options votes).Sublist options ∧
    (∀ w ∈ pollWinners options votes, ∃ j, j < options.length ∧
      options.getD j "" = w ∧
      (pollCounts options votes).getD j 0 = pollMax options votes) ∧
    (∀ j, j < options.length →
      (pollCounts options votes).getD j 0 = pollMax options votes →
      options.getD j "" ∈ pollWinners options votes) ∧
    (pollMax options votes = 0 →
      compileResult options votes = PollResult.noVotes) ∧
    (pollMax options votes ≠ 0 → (pollWinners options votes).length = 1 →
      compileResult options votes =
        PollResult.winner ((pollWinners options votes).headD "")
          (pollMax options votes)) ∧
    (pollMax options votes ≠ 0 → (pollWinners options votes).length ≠ 1 →
      compileResult options votes =
        PollResult.tie (pollWinners options votes) (pollMax options votes)) := by
  have heq : compileResult options votes =
      if pollMax options votes > 0 then
        (if (pollWinners options votes).length = 1 then
          PollResult.winner ((pollWinners options votes).headD "")
            (pollMax options votes)
        else PollResult.tie (pollWinners options votes) (pollMax options votes))
      else PollResult.noVotes := rfl
  refine ⟨tally_eq_counts options.length votes hin, ?_, ?_, ?_, ?_, ?_, ?_, ?_, ?_⟩
  · exact le_maxVotes (pollCounts options votes)
  · intro hne
    apply maxVotes_mem
    intro hnil
    have hlen : (pollCounts options votes).length = options.length :=
      length_tally options.length votes
    rw [hnil] at hlen
    exact hne (List.length_eq_zero.mp hlen.symm)
  · exact winnersFrom_sublist options (pollCounts options votes)
      (pollMax options votes) 0
  · intro w hw
    obtain ⟨j, hj, hgw, hcount⟩ := mem_winnersFrom hw
    exact ⟨j, hj, hgw, by simpa using hcount⟩
  · intro j hj hcount
    exact winnersFrom_complete j hj (by simpa using hcount)
  · intro h0
    rw [heq, if_neg (by omega)]
  · intro h0 h1
    rw [heq, if_pos (by omega), if_pos h1]
  · intro h0 h1
    rw [heq, if_pos (by omega), if_neg h1]

/-- Witness for C3: the spec's tie scenario — options A, B, C with votes
A:2, B:2, C:0 — compiles to a tie between A and B at 2 votes. -/
theorem resultCompilation_witness :
    compileResult ["A", "B", "C"]
      [("u1", 0), ("u2", 1), ("u3", 0), ("u4", 1)] =
      PollResult.tie ["A", "B"] 2 := by
  have h := resultCompilation ["A", "B", "C"]
    [("u1", 0), ("u2", 1), ("u3", 0), ("u4", 1)] (by decide)
  have htie := h.2.2.2.2.2.2.2.2 (by decide) (by decide)
  exact htie.trans (by decide)

/-- Unfolding of the collector handler on the full-participation path. -/
theorem collectVote_full {s : ActivePolls} {g p u : String} {idx : Nat}
    {sp : ServerPolls} {pd : PollData}
    (hg : mapGet s g = some sp) (hp : mapGet sp p = some pd)
    (hu : pd.eligibleVoters = [] ∨ u ∈ pd.eligibleVoters)
    (hfull : pd.eligibleVoters.length > 0 ∧
      (mapSet pd.votes u idx).length ≥ pd.eligibleVoters.length) :
    collectVote s g p u idx = VoteOutcome.ok
      ⟨VoteReply.recorded idx, true,
        (endPoll (mapSet s g (mapSet sp p
          { pd with votes := mapSet pd.votes u idx, timerArmed := false }))
          g p).1,
        (endPoll (mapSet s g (mapSet sp p
          { pd with votes := mapSet pd.votes u idx, timerArmed := false }))
          g p).2⟩ := by
  have hel : ¬ (pd.eligibleVoters.length > 0 ∧ ¬ u ∈ pd.eligibleVoters) := by
    rcases hu with hu | hu
    · intro hc
      rw [hu] at hc
      simp at hc
    · intro hc
      exact hc.2 hu
  simp only [collectVote, hg, hp]
  rw [if_neg hel, if_pos hfull]

/-- Claim C4: when eligibility is enforced, a successful cast-vote that
brings `votes.size` up to `eligibleVoters.size` immediately closes the
session: the deadline timer is cancelled (`clearTimeout`), the results
are published from the final ledger, and the session is removed from the
store — all within the same handler step, before the deadline fires. -/
theorem fullParticipationCloses (s : ActivePolls) (g p u : String)
    (idx : Nat) (sp : ServerPolls) (pd : PollData) (hs : WellKeyed s)
    (hg : mapGet s g = some sp) (hp : mapGet sp p = some pd)
    (hne : pd.eligibleVoters ≠ []) (hu : u ∈ pd.eligibleVoters)
    (hfull : (mapSet pd.votes u idx).length = pd.eligibleVoters.length) :
    voteCancelledTimer (collectVote s g p u idx) = true ∧
    votePublished (collectVote s g p u idx) =
      some (compileResult pd.options (mapSet pd.votes u idx)) ∧
    getPoll (voteStore (collectVote s g p u idx)) g p = none := by
  have hlen : pd.eligibleVoters.length > 0 := List.length_pos.mpr hne
  have hcv := collectVote_full hg hp (Or.inr hu)
    ⟨hlen, Nat.le_of_eq hfull.symm⟩
  rw [hcv]
  have hnd : (sp.map Prod.fst).Nodup := wellKeyed_inner hs hg
  have hg₁ : mapGet (mapSet s g (mapSet sp p
      { pd with votes := mapSet pd.votes u idx, timerArmed := false })) g =
      some (mapSet sp p
        { pd with votes := mapSet pd.votes u idx, timerArmed := false }) :=
    mapGet_mapSet_self s g _
  have hp₁ : mapGet (mapSet sp p
      { pd with votes := mapSet pd.votes u idx, timerArmed := false }) p =
      some { pd with votes := mapSet pd.votes u idx, timerArmed := false } :=
    mapGet_mapSet_self sp p _
  refine ⟨rfl, ?_, ?_⟩
  · simpa [votePublished] using endPoll_present hg₁ hp₁
  · exact getPoll_endPoll_self g p
      (wellKeyed_mapSet hs (keys_nodup_mapSet sp p _ hnd))

/-- Witness for C4: the spec's three-voter early-termination scenario.
With eligibility set of three and two votes already cast, the third vote
cancels the timer, publishes a winner computed from all three votes, and
removes the session. -/
theorem fullParticipationCloses_witness :
    voteCancelledTimer (collectVote
      [("g", [("p", ⟨["A", "B"], [("u", 0), ("v", 1)], ["u", "v", "w"],
        true⟩)])] "g" "p" "w" 0) = true ∧
    votePublished (collectVote
      [("g", [("p", ⟨["A", "B"], [("u", 0), ("v", 1)], ["u", "v", "w"],
        true⟩)])] "g" "p" "w" 0) = some (PollResult.winner "A" 2) ∧
    getPoll (voteStore (collectVote
      [("g", [("p", ⟨["A", "B"], [("u", 0), ("v", 1)], ["u", "v", "w"],
        true⟩)])] "g" "p" "w" 0)) "g" "p" = none := by
  have h := fullParticipationCloses
    [("g", [("p", ⟨["A", "B"], [("u", 0), ("v", 1)], ["u", "v", "w"], true⟩)])]
    "g" "p" "w" 0 [("p", ⟨["A", "B"], [("u", 0), ("v", 1)], ["u", "v", "w"],
      true⟩)] ⟨["A", "B"], [("u", 0), ("v", 1)], ["u", "v", "w"], true⟩
    (by decide) (by decide) (by decide) (by decide) (by decide) (by decide)
  exact ⟨h.1, h.2.1.trans (by decide), h.2.2⟩

/-- Claim C5 counterexample: the collector handler performs no range
check on the option index, so a cast-vote carrying the out-of-range
index 7 against a two-option poll IS recorded in the ledger. -/
theorem indexRangeCheck_counterexample :
    voteStore (collectVote (execute [] "g" "p" ["A", "B"] 5 false
        ["u", "v"]).2 "g" "p" "u" 7) =
      [("g", [("p", ⟨["A", "B"], [("u", 7)], ["u", "v"], true⟩)])] := by
  decide

/-- Claim C5 as amended: the handler itself records whatever index the
event carries, but every state reachable when delivered clicks carry
only indices of buttons the poll created (all `< options.length`, the
chat platform's guarantee, `Reachable true`) has every stored option
index strictly below `options.length`. -/
theorem ledgerIndicesInRange {s : ActivePolls} (g p : String)
    (pd : PollData) (hr : Reachable true s)
    (hp : getPoll s g p = some pd) :
    ∀ e ∈ pd.votes, e.2 < pd.options.length := by
  obtain ⟨sp, hg, hsp⟩ := getPoll_eq_some hp
  exact ((reachable_storeInv hr).2 g sp hg p pd hsp).2.2.2 rfl

/-- Witness for the amended C5: a reachable two-option poll with one
recorded in-range vote satisfies the invariant at that vote. -/
theorem ledgerIndicesInRange_witness :
    (("u", 1) : String × Nat).2 <
      (⟨["A", "B"], [("u", 1)], ["u", "v"], true⟩ : PollData).options.length := by
  have hstart : Reachable true (execute [] "g" "p" ["A", "B"] 5 false
      ["u", "v"]).2 :=
    Reachable.start "g" "p" ["A", "B"] 5 false (by decide) (Reachable.init true)
  have hclick : ∀ pd₀ : PollData,
      getPoll (execute [] "g" "p" ["A", "B"] 5 false ["u", "v"]).2 "g" "p" =
        some pd₀ → 1 < pd₀.options.length := by
    intro pd₀ hpd
    have hpd' : (⟨["A", "B"], [], ["u", "v"], true⟩ : PollData) = pd₀ :=
      Option.some.inj hpd
    rw [← hpd']
    decide
  have hr : Reachable true (voteStore (collectVote
      (execute [] "g" "p" ["A", "B"] 5 false ["u", "v"]).2 "g" "p" "u" 1)) :=
    Reachable.vote "g" "p" "u" 1 (fun _ => hclick) hstart
  exact ledgerIndicesInRange "g" "p"
    ⟨["A", "B"], [("u", 1)], ["u", "v"], true⟩ hr (by decide) ("u", 1)
    (by decide)

/-- Claim C6: whenever eligibility is enforced (non-empty snapshot), the
ledger never holds more votes than there are eligible voters, in every
reachable state: ineligible voters are rejected before the write and a
repeat voter overwrites in place, so the ledger keys stay a
duplicate-free subset of the snapshot. -/
theorem votesBoundedByEligible {b : Bool} {s : ActivePolls} (g p : String)
    (pd : PollData) (hr : Reachable b s) (hp : getPoll s g p = some pd)
    (hne : pd.eligibleVoters ≠ []) :
    pd.votes.length ≤ pd.eligibleVoters.length := by
  obtain ⟨sp, hg, hsp⟩ := getPoll_eq_some hp
  obtain ⟨hnd, _, hsub, _⟩ := (reachable_storeInv hr).2 g sp hg p pd hsp
  have hsubkeys : pd.votes.map Prod.fst ⊆ pd.eligibleVoters := by
    intro k hk
    obtain ⟨e, he, hke⟩ := List.mem_map.mp hk
    rw [← hke]
    exact hsub hne e he
  have hle := (List.subperm_of_subset hnd hsubkeys).length_le
  rwa [List.length_map] at hle

/-- Witness for C6 at a reachable state: two votes recorded against a
three-voter eligibility set. -/
theorem votesBoundedByEligible_witness :
    (⟨["A", "B"], [("u", 0), ("v", 1)], ["u", "v", "w"], true⟩ :
      PollData).votes.length ≤
      (⟨["A", "B"], [("u", 0), ("v", 1)], ["u", "v", "w"], true⟩ :
        PollData).eligibleVoters.length := by
  have hstart : Reachable false (execute [] "g" "p" ["A", "B"] 5 false
      ["u", "v", "w"]).2 :=
    Reachable.start "g" "p" ["A", "B"] 5 false (by decide)
      (Reachable.init false)
  have hu : Reachable false (voteStore (collectVote
      (execute [] "g" "p" ["A", "B"] 5 false ["u", "v", "w"]).2
      "g" "p" "u" 0)) :=
    Reachable.vote "g" "p" "u" 0 (by intro h; cases h) hstart
  have hv : Reachable false (voteStore (collectVote (voteStore (collectVote
      (execute [] "g" "p" ["A", "B"] 5 false ["u", "v", "w"]).2
      "g" "p" "u" 0)) "g" "p" "v" 1)) :=
    Reachable.vote "g" "p" "v" 1 (by intro h; cases h) hu
  exact votesBoundedByEligible "g" "p"
    ⟨["A", "B"], [("u", 0), ("v", 1)], ["u", "v", "w"], true⟩ hv
    (by decide) (by decide)

/-- Claim C7: a voter absent from a non-empty eligibility snapshot is
rejected with the "not eligible" reply and nothing is mutated — the
returned store is exactly the input store, no timer is cancelled and
nothing is published. -/
theorem ineligibleVoterRejected (s : ActivePolls) (g p u : String)
    (idx : Nat) (sp : ServerPolls) (pd : PollData)
    (hg : mapGet s g = some sp) (hp : mapGet sp p = some pd)
    (hne : pd.eligibleVoters ≠ []) (hu : u ∉ pd.eligibleVoters) :
    collectVote s g p u idx =
      VoteOutcome.ok ⟨VoteReply.notEligible, false, none, s⟩ := by
  simp only [collectVote, hg, hp]
  rw [if_pos ⟨List.length_pos.mpr hne, hu⟩]

/-- Witness for C7: voter `x` outside the snapshot is rejected and the
store is returned unchanged. -/
theorem ineligibleVoterRejected_witness :
    collectVote [("g", [("p", ⟨["A", "B"], [("u", 0)], ["u", "v"], true⟩)])]
      "g" "p" "x" 1 = VoteOutcome.ok ⟨VoteReply.notEligible, false, none,
        [("g", [("p", ⟨["A", "B"], [("u", 0)], ["u", "v"], true⟩)])]⟩ :=
  ineligibleVoterRejected
    [("g", [("p", ⟨["A", "B"], [("u", 0)], ["u", "v"], true⟩)])] "g" "p" "x" 1
    [("p", ⟨["A", "B"], [("u", 0)], ["u", "v"], true⟩)]
    ⟨["A", "B"], [("u", 0)], ["u", "v"], true⟩
    (by decide) (by decide) (by decide) (by decide)

theorem filter_key_eq_nil {votes : Ledger} {u : String}
    (h : u ∉ votes.map Prod.fst) :
    votes.filter (fun e => e.1 == u) = [] := by
  induction votes with
  | nil => rfl
  | cons e rest ih =>
      rw [List.map_cons, List.mem_cons] at h
      push_neg at h
      rw [List.filter_cons_of_neg (by simpa using Ne.symm h.1)]
      exact ih h.2

theorem filter_key_mapSet {votes : Ledger} {u : String} {idx : Nat}
    (hnd : (votes.map Prod.fst).Nodup) (hu : u ∈ votes.map Prod.fst) :
    (mapSet votes u idx).filter (fun e => e.1 == u) = [(u, idx)] := by
  induction votes with
  | nil => simp at hu
  | cons e rest ih =>
      obtain ⟨k, v⟩ := e
      rw [List.map_cons, List.nodup_cons] at hnd
      rw [List.map_cons, List.mem_cons] at hu
      by_cases hk : k = u
      · rw [mapSet, if_pos hk]
        rw [List.filter_cons_of_pos (by simp)]
        rw [filter_key_eq_nil (hk ▸ hnd.1)]
      · rw [mapSet, if_neg hk]
        rw [List.filter_cons_of_neg (by simpa using hk)]
        rcases hu with hu | hu
        · exact absurd hu.symm hk
        · exact ih hnd.2 hu

/-- Claim C8: a repeat vote by a voter who already has a recorded entry
replaces that entry in place — latest write wins, the ledger does not
grow, the ledger keeps exactly one entry for the voter, and the handler
records it through `votes.set` without closing the poll (the ledger size
is unchanged, so full participation cannot newly trigger). -/
theorem repeatVoteOverwrites (s : ActivePolls) (g p u : String) (idx : Nat)
    (sp : ServerPolls) (pd : PollData)
    (hg : mapGet s g = some sp) (hp : mapGet sp p = some pd)
    (hnd : (pd.votes.map Prod.fst).Nodup)
    (hel : pd.eligibleVoters = [] ∨ u ∈ pd.eligibleVoters)
    (hvoted : u ∈ pd.votes.map Prod.fst)
    (hopen : pd.eligibleVoters ≠ [] →
      pd.votes.length < pd.eligibleVoters.length) :
    (mapSet pd.votes u idx).length = pd.votes.length ∧
    (mapSet pd.votes u idx).filter (fun e => e.1 == u) = [(u, idx)] ∧
    (mapSet pd.votes u idx).map Prod.fst = pd.votes.map Prod.fst ∧
    collectVote s g p u idx = VoteOutcome.ok
      ⟨VoteReply.recorded idx, false, none,
        mapSet s g (mapSet sp p { pd with votes := mapSet pd.votes u idx })⟩ := by
  have hlen := length_mapSet_of_mem pd.votes u idx hvoted
  refine ⟨hlen, filter_key_mapSet hnd hvoted,
    keys_mapSet_of_mem pd.votes u idx hvoted, ?_⟩
  have helig : ¬ (pd.eligibleVoters.length > 0 ∧ ¬ u ∈ pd.eligibleVoters) := by
    rcases hel with hel | hel
    · intro hc
      rw [hel] at hc
      simp at hc
    · intro hc
      exact hc.2 hel
  have hfull : ¬ (pd.eligibleVoters.length > 0 ∧
      (mapSet pd.votes u idx).length ≥ pd.eligibleVoters.length) := by
    intro hc
    have hne : pd.eligibleVoters ≠ [] := by
      intro hnil
      rw [hnil] at hc
      simp at hc
    have := hopen hne
    rw [hlen] at hc
    omega
  simp only [collectVote, hg, hp]
  rw [if_neg helig, if_neg hfull]

/-- Witness for C8: voter `u` changes their vote from option 0 to
option 1 in a two-voter poll: the ledger keeps size one, holds exactly
`(u, 1)`, and the poll stays open with the updated ledger stored. -/
theorem repeatVoteOverwrites_witness :
    (mapSet [("u", 0)] "u" 1).length = ([("u", 0)] : Ledger).length ∧
    (mapSet [("u", 0)] "u" 1).filter (fun e => e.1 == "u") = [("u", 1)] ∧
    collectVote [("g", [("p", ⟨["A", "B"], [("u", 0)], ["u", "v"], true⟩)])]
      "g" "p" "u" 1 = VoteOutcome.ok ⟨VoteReply.recorded 1, false, none,
        [("g", [("p", ⟨["A", "B"], [("u", 1)], ["u", "v"], true⟩)])]⟩ := by
  have h := repeatVoteOverwrites
    [("g", [("p", ⟨["A", "B"], [("u", 0)], ["u", "v"], true⟩)])] "g" "p" "u" 1
    [("p", ⟨["A", "B"], [("u", 0)], ["u", "v"], true⟩)]
    ⟨["A", "B"], [("u", 0)], ["u", "v"], true⟩
    (by decide) (by decide) (by decide) (by decide) (by decide) (by decide)
  exact ⟨h.1, h.2.1, h.2.2.2.trans (by decide)⟩

/-- Claim C9 counterexample: a creation request with a valid option
count but a plainly invalid duration (-5 minutes) is NOT rejected — no
duration validation exists: the session is created and its deadline
timer armed with a negative delay. -/
theorem startValidation_counterexample :
    execute [] "g" "p" ["A", "B"] (-5) false [] =
      (StartOutcome.created "p" (-300000),
        [("g", [("p", ⟨["A", "B"], [], [], true⟩)])]) := by
  decide

/-- Claim C9 as amended: an option count outside [2,5] is rejected
synchronously with a validation reply and no state is created — the
store is returned unchanged, so no session exists and no timer is
armed.  The duration is never validated; any integer duration is
accepted (see the counterexample). -/
theorem startValidation (s : ActivePolls) (g p : String)
    (options : List String) (d : Int) (dm : Bool) (elig : List String)
    (h : options.length < 2 ∨ options.length > 5) :
    (execute s g p options d dm elig).2 = s ∧
    ((execute s g p options d dm elig).1 =
        StartOutcome.rejected StartReject.tooFewOptions ∨
      (execute s g p options d dm elig).1 =
        StartOutcome.rejected StartReject.tooManyOptions) := by
  rcases h with h | h
  · simp only [execute]
    rw [if_pos h]
    exact ⟨rfl, Or.inl rfl⟩
  · simp only [execute]
    rw [if_neg (by omega), if_pos h]
    exact ⟨rfl, Or.inr rfl⟩

/-- Witness for the amended C9: a single-option request is rejected and
the store stays empty. -/
theorem startValidation_witness :
    (execute [] "g" "p" ["A"] 5 false []).2 = [] ∧
    ((execute [] "g" "p" ["A"] 5 false []).1 =
        StartOutcome.rejected StartReject.tooFewOptions ∨
      (execute [] "g" "p" ["A"] 5 false []).1 =
        StartOutcome.rejected StartReject.tooManyOptions) :=
  startValidation [] "g" "p" ["A"] 5 false [] (by decide)

/-- Claim C10: the completing vote is written to the ledger before the
full-participation check runs, so the published results are compiled
from the post-write ledger: that ledger contains the final vote and the
count of its option in the tally is at least one. -/
theorem finalVoteCounted (s : ActivePolls) (g p u : String) (idx : Nat)
    (sp : ServerPolls) (pd : PollData)
    (hg : mapGet s g = some sp) (hp : mapGet sp p = some pd)
    (hne : pd.eligibleVoters ≠ []) (hu : u ∈ pd.eligibleVoters)
    (hidx : idx < pd.options.length)
    (hin : ∀ e ∈ pd.votes, e.2 < pd.options.length)
    (hfull : (mapSet pd.votes u idx).length = pd.eligibleVoters.length) :
    votePublished (collectVote s g p u idx) =
      some (compileResult pd.options (mapSet pd.votes u idx)) ∧
    (u, idx) ∈ mapSet pd.votes u idx ∧
    1 ≤ (pollCounts pd.options (mapSet pd.votes u idx)).getD idx 0 := by
  have hcv := collectVote_full hg hp (Or.inr hu)
    ⟨List.length_pos.mpr hne, Nat.le_of_eq hfull.symm⟩
  have hmem : (u, idx) ∈ mapSet pd.votes u idx :=
    mem_of_mapGet_eq_some (mapGet_mapSet_self pd.votes u idx)
  refine ⟨?_, hmem, ?_⟩
  · rw [hcv]
    simpa [votePublished] using endPoll_present
      (mapGet_mapSet_self s g (mapSet sp p
        { pd with votes := mapSet pd.votes u idx, timerArmed := false }))
      (mapGet_mapSet_self sp p
        { pd with votes := mapSet pd.votes u idx, timerArmed := false })
  · have hin' : ∀ e ∈ mapSet pd.votes u idx, e.2 < pd.options.length := by
      intro e he
      rcases mem_mapSet he with he | he
      · rw [he]; exact hidx
      · exact hin e he
    rw [pollCounts, getD_tally pd.options.length _ idx hin']
    exact List.length_pos_of_mem
      (List.mem_filter.mpr ⟨hmem, by simp⟩)

/-- Witness for C10: the third voter's completing vote appears in the
published tally — option A wins 2 to 1 including the final vote. -/
theorem finalVoteCounted_witness :
    votePublished (collectVote
      [("g", [("p", ⟨["A", "B"], [("u", 0), ("v", 1)], ["u", "v", "w"],
        true⟩)])] "g" "p" "w" 0) = some (PollResult.winner "A" 2) ∧
    ("w", (0 : Nat)) ∈ mapSet [("u", 0), ("v", 1)] "w" 0 ∧
    1 ≤ (pollCounts ["A", "B"] (mapSet [("u", 0), ("v", 1)] "w" 0)).getD 0 0 := by
  have h := finalVoteCounted
    [("g", [("p", ⟨["A", "B"], [("u", 0), ("v", 1)], ["u", "v", "w"], true⟩)])]
    "g" "p" "w" 0 [("p", ⟨["A", "B"], [("u", 0), ("v", 1)], ["u", "v", "w"],
      true⟩)] ⟨["A", "B"], [("u", 0), ("v", 1)], ["u", "v", "w"], true⟩
    (by decide) (by decide) (by decide) (by decide) (by decide) (by decide)
    (by decide)
  exact ⟨h.1.trans (by decide), h.2.1, h.2.2⟩

end AgileMate
